import Mathlib

/-!
Token lifecycle of `auth/auth.go`.

A shallow embedding of the package `auth` (type `Authorization`, interface
`TokenStore`, type `tokenManager`) and the properties of its orchestration.

Go passes the `Authorization`, its `tokenManager` and the store around by
pointer and mutates them in place.  Here every method is a function on one
record, `Sys`, that holds the `Authorization` value together with the state of
the collaborators it talks to (the data source behind the `TokenStore`, the
OAuth2 provider, the wall clock) and a ghost log of the calls made on the
store.  A Go result `(v, err)` is a pair whose second component is
`none` for `nil`.  The method `AuthorizeCLI`, which prints a prompt, reads a code
from standard input and calls `AuthorizeFromCode`, is not embedded.

Concurrent calls of `Token()` are a step relation: every caller has a place in
lines 88-102, a scheduler picks the caller that takes the next step, and the
steps act on the same `Sys` through the same lock and store operations as the
sequential method.
-/

namespace Auth

/-! ## Collaborators outside the package -/

/-- A Go `error` value. -/
structure Error where
  msg : String
  deriving DecidableEq, Repr

/-- A `context.Context`; the package only hands it on to the OAuth2 library. -/
structure Context where
  deadline : Option Nat
  deriving DecidableEq, Repr

/-- The context `context.Background()`. -/
def background : Context := { deadline := none }

/-- Modelled from the spec: `oauth2.Token` is a type of the OAuth2 library, not
of this package.  An access value, an optional refresh value (empty when
absent) and an expiry timestamp (`none` for the zero time, "never expires"). -/
structure Token where
  AccessToken : String
  RefreshToken : String
  Expiry : Option Nat
  deriving DecidableEq, Repr

/-- A `*oauth2.Token`; `none` is the `nil` pointer. -/
abbrev TokenPtr := Option Token

/-- Modelled from the spec: the token's expiry timestamp lies before the clock
reading `now`. -/
def Token.expired (t : Token) (now : Nat) : Bool :=
  match t.Expiry with
  | none => false
  | some e => decide (e < now)

/-- Modelled from the spec: `(*oauth2.Token).Valid`, "valid iff access value
present and not expired"; a `nil` token is not valid. -/
def Valid (t : TokenPtr) (now : Nat) : Bool :=
  match t with
  | none => false
  | some t => t.AccessToken != "" && !(t.expired now)

/-- The interface `TokenStore` (auth.go, lines 22-28): any implementation of
`Get` and `Save`, acting on the state `σ` of its data source. -/
structure TokenStore (σ : Type) where
  Get : σ → (TokenPtr × Option Error) × σ
  Save : TokenPtr → σ → Option Error × σ

/-- An `oauth2.TokenSource`: its `Token` method, acting on the state `ν` of the
OAuth2 provider. -/
structure TokenSource (ν : Type) where
  Token : ν → (TokenPtr × Option Error) × ν

/-- An `oauth2.AuthCodeOption`, a query parameter to set on the authorization
URL (`oauth2.SetAuthURLParam`). -/
structure AuthCodeOption where
  key : String
  value : String
  deriving DecidableEq, Repr

/-- The option `oauth2.AccessTypeOffline`, `SetAuthURLParam("access_type", "offline")`. -/
def AccessTypeOffline : AuthCodeOption := ⟨"access_type", "offline"⟩

/-- An authorization URL, kept in parsed form: the endpoint and the decoded
query parameters (Go returns its string encoding). -/
structure URL where
  endpoint : String
  query : List (String × String)
  deriving DecidableEq, Repr

/-- The method `url.Values.Set`: replace the value of `k`, or add it. -/
def setValue (k v : String) : List (String × String) → List (String × String)
  | [] => [(k, v)]
  | (k1, v1) :: rest => if k1 = k then (k, v) :: rest else (k1, v1) :: setValue k v rest

/-- The method `url.Values.Get`: the value of `k`, the empty string when `k` is
not set. -/
def getValue (k : String) : List (String × String) → String
  | [] => ""
  | (k1, v1) :: rest => if k1 = k then v1 else getValue k rest

/-- The struct `oauth2.Endpoint`: the provider's two URLs. -/
structure Endpoint where
  AuthURL : String
  TokenURL : String
  deriving DecidableEq, Repr

/-- An `oauth2.Config`: the client configuration, with the two operations of the
OAuth2 library that talk to the provider taken as parameters. -/
structure Config (ν : Type) where
  ClientID : String
  ClientSecret : String
  Endpoint : Endpoint
  RedirectURL : String
  Scopes : List String
  Exchange : Context → String → ν → (TokenPtr × Option Error) × ν
  TokenSource : Context → TokenPtr → TokenSource ν

/-- Modelled from the spec: `(*oauth2.Config).AuthCodeURL` is a function of the
OAuth2 library; "authorization-URL construction from client config + state +
offline access flag".  The query carries the response type and the client id,
then the redirect URL, the scopes and the state, each set when it is not empty,
and then every option is applied. -/
def Config.AuthCodeURL {ν : Type} (c : Config ν) (state : String)
    (opts : List AuthCodeOption) : URL :=
  let v0 := [("response_type", "code"), ("client_id", c.ClientID)]
  let v1 := if c.RedirectURL ≠ "" then setValue "redirect_uri" c.RedirectURL v0 else v0
  let v2 := if c.Scopes.length > 0 then setValue "scope" (" ".intercalate c.Scopes) v1 else v1
  let v3 := if state ≠ "" then setValue "state" state v2 else v2
  { endpoint := c.Endpoint.AuthURL
    query := opts.foldl (fun q o => setValue o.key o.value q) v3 }

/-- A `sync.Mutex`. -/
structure Mutex where
  locked : Bool
  deriving DecidableEq, Repr

/-- The method `(*sync.Mutex).Lock`.  On a locked mutex the caller waits for an
unlock; in a sequential run nobody is left to unlock, so the call never returns
(`none`). -/
def Mutex.Lock (m : Mutex) : Option Mutex :=
  if m.locked then none else some { locked := true }

/-- The method `(*sync.Mutex).Unlock`.  Unlocking an unlocked mutex is a fatal
run-time error (`none`). -/
def Mutex.Unlock (m : Mutex) : Option Mutex :=
  if m.locked then some { locked := false } else none

/-! ## The package state -/

/-- A call received by the store (ghost log). -/
inductive StoreCall where
  | get
  | save (t : TokenPtr)
  deriving DecidableEq, Repr

/-- The struct `tokenManager` (lines 78-82); the field `mut` is named `mutex`
here, `mut` being a keyword. -/
structure tokenManager (σ ν : Type) where
  store : TokenStore σ
  mutex : Mutex
  src : Option (TokenSource ν)

/-- The struct `Authorization` (lines 16-19). -/
structure Authorization (σ ν : Type) where
  Config : Config ν
  tokenManager : tokenManager σ ν

/-- The `Authorization` value `a` that the methods act on, with the state of its
collaborators:

* `data`: the state of the data source behind `a.tokenManager.store`;
* `net`: the state of the OAuth2 provider;
* `now`: the reading of the wall clock;
* `calls`: every call made on the store so far, oldest first. -/
structure Sys (σ ν : Type) where
  a : Authorization σ ν
  data : σ
  net : ν
  now : Nat
  calls : List StoreCall

variable {σ ν : Type}

/-- The function `newTokenManager` (lines 84-86): `mut` and `src` are zero
values. -/
def newTokenManager (store : TokenStore σ) : tokenManager σ ν :=
  { store := store, mutex := { locked := false }, src := none }

/-- The function `NewAuthorization` (lines 30-33). -/
def NewAuthorization (cnf : Config ν) (ts : TokenStore σ) : Authorization σ ν :=
  let tokenManager := newTokenManager ts
  { Config := cnf, tokenManager := tokenManager }

/-- A new `Authorization` in a world where the data source is in state `data`,
the provider in state `net`, the clock reads `now`, and the store has received
no call yet. -/
def Sys.start (a : Authorization σ ν) (data : σ) (net : ν) (now : Nat) : Sys σ ν :=
  { a := a, data := data, net := net, now := now, calls := [] }

/-- The config of the `Authorization`, `a.Config`. -/
abbrev Sys.Config (s : Sys σ ν) : Config ν := s.a.Config

/-- The store of the manager, `a.tokenManager.store`. -/
abbrev Sys.store (s : Sys σ ν) : TokenStore σ := s.a.tokenManager.store

/-- The lock of the manager, `a.tokenManager.mut`. -/
abbrev Sys.mutex (s : Sys σ ν) : Mutex := s.a.tokenManager.mutex

/-- The refreshing token source kept by the manager, `a.tokenManager.src`. -/
abbrev Sys.src (s : Sys σ ν) : Option (TokenSource ν) := s.a.tokenManager.src

/-- The call `s.store.Get()`, logged. -/
def storeGet (s : Sys σ ν) : (TokenPtr × Option Error) × Sys σ ν :=
  let r := s.a.tokenManager.store.Get s.data
  (r.1, { s with data := r.2, calls := s.calls ++ [StoreCall.get] })

/-- The call `s.store.Save(t)`, logged. -/
def storeSave (t : TokenPtr) (s : Sys σ ν) : Option Error × Sys σ ν :=
  let r := s.a.tokenManager.store.Save t s.data
  (r.1, { s with data := r.2, calls := s.calls ++ [StoreCall.save t] })

/-! ## `tokenManager` -/

/-- The body of `(*tokenManager).Token` between `Lock` and the deferred
`Unlock` (lines 91-101). -/
def tokenManager.TokenBody (s : Sys σ ν) : (TokenPtr × Option Error) × Sys σ ν :=
  let r := storeGet s
  let token := r.1.1
  let err := r.1.2
  if err.isSome then ((none, err), r.2)
  else if Valid token r.2.now then ((token, none), r.2)
  else
    let r2 := storeSave token r.2
    if r2.1.isSome then ((token, r2.1), r2.2)
    else ((token, none), r2.2)

/-- The method `(*tokenManager).Token` (lines 88-102): `s.mut.Lock()`, the body,
and `s.mut.Unlock()` on the way out (`defer`).  `none` when the call does not
return. -/
def tokenManager.Token (s : Sys σ ν) : Option ((TokenPtr × Option Error) × Sys σ ν) :=
  match s.a.tokenManager.mutex.Lock with
  | none => none
  | some m =>
    let r := tokenManager.TokenBody { s with a.tokenManager.mutex := m }
    match r.2.a.tokenManager.mutex.Unlock with
    | none => none
    | some m2 => some (r.1, { r.2 with a.tokenManager.mutex := m2 })

/-- The method `(*tokenManager).Get` (lines 104-106). -/
def tokenManager.Get (s : Sys σ ν) : (TokenPtr × Option Error) × Sys σ ν :=
  storeGet s

/-- The method `(*tokenManager).Save` (lines 108-110). -/
def tokenManager.Save (t : TokenPtr) (s : Sys σ ν) : Option Error × Sys σ ν :=
  storeSave t s

/-! ## The refreshing client of the OAuth2 library -/

/-- Modelled from the spec: the value built by `oauth2.ReuseTokenSource`, "a
decorator that wraps a token source to reuse a token until expiry and otherwise
re-invoke a supplied refresher".  `t` is the token held, `new` the `Token`
method of the refresher. -/
structure reuseTokenSource (σ ν : Type) where
  t : TokenPtr
  new : Sys σ ν → Option ((TokenPtr × Option Error) × Sys σ ν)

/-- Modelled from the spec: the function `oauth2.ReuseTokenSource`. -/
def ReuseTokenSource (t : TokenPtr)
    (src : Sys σ ν → Option ((TokenPtr × Option Error) × Sys σ ν)) : reuseTokenSource σ ν :=
  { t := t, new := src }

/-- Modelled from the spec: the method `Token` of the decorator.  The held
token is handed out while it is valid; otherwise the refresher is asked, and
its token, when it gives one without error, is held from then on.  (What the
library does with a `nil` token that comes without an error is not specified;
no property below depends on it.) -/
def reuseTokenSource.Token (r : reuseTokenSource σ ν) (s : Sys σ ν) :
    Option (((TokenPtr × Option Error) × reuseTokenSource σ ν) × Sys σ ν) :=
  if Valid r.t s.now then some (((r.t, none), r), s)
  else
    match r.new s with
    | none => none
    | some (res, s1) =>
      if res.2.isSome then some (((none, res.2), r), s1)
      else some (((res.1, none), { r with t := res.1 }), s1)

/-- Modelled from the spec: the `*http.Client` built by `oauth2.NewClient`, "an
HTTP client factory that attaches a token source's value as a bearer credential
per request".  `Source` is the token source asked before every request. -/
structure HTTPClient (σ ν : Type) where
  Source : reuseTokenSource σ ν

/-- Modelled from the spec: the function `oauth2.NewClient`; the context only
selects the underlying transport. -/
def NewClient (_ctx : Context) (src : reuseTokenSource σ ν) : HTTPClient σ ν :=
  { Source := src }

/-! ## `Authorization` -/

/-- The method `(*Authorization).AuthCodeURL` (lines 35-37). -/
def Authorization.AuthCodeURL (s : Sys σ ν) (state : String) : URL :=
  s.a.Config.AuthCodeURL state [AccessTypeOffline]

/-- The method `(*Authorization).AuthorizeFromCode` (lines 39-48). -/
def Authorization.AuthorizeFromCode (ctx : Context) (code : String) (s : Sys σ ν) :
    Option Error × Sys σ ν :=
  let r := s.a.Config.Exchange ctx code s.net
  let token := r.1.1
  let err := r.1.2
  let s1 := { s with net := r.2 }
  if err.isSome then (err, s1)
  else
    let r2 := Auth.tokenManager.Save token s1
    if r2.1.isSome then (r2.1, r2.2)
    else (none, r2.2)

/-- The method `(*Authorization).Client` (lines 65-76). -/
def Authorization.Client (ctx : Context) (s : Sys σ ν) :
    (Option (HTTPClient σ ν) × Option Error) × Sys σ ν :=
  let r := Auth.tokenManager.Get s
  let token := r.1.1
  let err := r.1.2
  if err.isSome then ((none, err), r.2)
  else
    let src := r.2.a.Config.TokenSource ctx token
    let s1 := { r.2 with a.tokenManager.src := some src }
    let rts := ReuseTokenSource token Auth.tokenManager.Token
    let ctx2 := background
    ((some (NewClient ctx2 rts), none), s1)

/-- A caller making one `Token()` call after the other on the same manager, the
clock reading `now` at the start of each call given by `times`.  `none` when
one of the calls does not return. -/
def sequentialTokens : List Nat → Sys σ ν → Option (List (TokenPtr × Option Error) × Sys σ ν)
  | [], s => some ([], s)
  | now :: rest, s =>
    match tokenManager.Token { s with now := now } with
    | none => none
    | some (r, s1) =>
      match sequentialTokens rest s1 with
      | none => none
      | some (rs, s2) => some (r :: rs, s2)

/-! ## Concurrent callers of `Token()` -/

/-- Where one caller of `(*tokenManager).Token` stands in lines 88-102:

* `start`: before `s.mut.Lock()` (line 89);
* `locked`: the lock taken, before `s.store.Get()` (line 91);
* `got token err`: `Get` has returned, before the tests of lines 92 and 95;
* `invalid token`: `token.Valid()` was false, before `s.store.Save(token)` (line 98);
* `ret token err`: the result is set, the deferred `s.mut.Unlock()` is pending;
* `done token err`: the call has returned `(token, err)`. -/
inductive PC where
  | start
  | locked
  | got (token : TokenPtr) (err : Option Error)
  | invalid (token : TokenPtr)
  | ret (token : TokenPtr) (err : Option Error)
  | done (token : TokenPtr) (err : Option Error)
  deriving DecidableEq, Repr

/-- The caller is between `Lock` and `Unlock`. -/
def PC.inside : PC → Bool
  | PC.locked => true
  | PC.got _ _ => true
  | PC.invalid _ => true
  | PC.ret _ _ => true
  | _ => false

/-- The caller has made its `Get`. -/
def PC.pastGet : PC → Bool
  | PC.start => false
  | PC.locked => false
  | _ => true

/-- The caller has made its `Get` and has not yet decided on a `Save`. -/
def PC.pending : PC → Bool
  | PC.got _ _ => true
  | PC.invalid _ => true
  | _ => false

/-- The caller has returned. -/
def PC.isDone : PC → Bool
  | PC.done _ _ => true
  | _ => false

/-- The call on the store that a caller makes with its next step. -/
def PC.event : PC → List StoreCall
  | PC.locked => [StoreCall.get]
  | PC.invalid token => [StoreCall.save token]
  | _ => []

/-- One step of one caller through `(*tokenManager).Token` (lines 89-101, and
the deferred `Unlock` of line 90 last).  `none` when the caller cannot move: it
waits for the lock, or it has returned. -/
def tokenManager.TokenStep (pc : PC) (s : Sys σ ν) : Option (PC × Sys σ ν) :=
  match pc with
  | PC.start =>
    match s.a.tokenManager.mutex.Lock with
    | none => none
    | some m => some (PC.locked, { s with a.tokenManager.mutex := m })
  | PC.locked =>
    let r := storeGet s
    some (PC.got r.1.1 r.1.2, r.2)
  | PC.got token err =>
    if err.isSome then some (PC.ret none err, s)
    else if Valid token s.now then some (PC.ret token none, s)
    else some (PC.invalid token, s)
  | PC.invalid token =>
    let r2 := storeSave token s
    if r2.1.isSome then some (PC.ret token r2.1, r2.2)
    else some (PC.ret token none, r2.2)
  | PC.ret token err =>
    match s.a.tokenManager.mutex.Unlock with
    | none => none
    | some m => some (PC.done token err, { s with a.tokenManager.mutex := m })
  | PC.done _ _ => none

/-- One caller going through `Token()` on its own, for at most `n` steps. -/
def tokenManager.TokenSteps : Nat → PC → Sys σ ν → PC × Sys σ ν
  | 0, pc, s => (pc, s)
  | n + 1, pc, s =>
    match tokenManager.TokenStep pc s with
    | none => (pc, s)
    | some (pc1, s1) => tokenManager.TokenSteps n pc1 s1

/-- Several goroutines inside `Token()` on one manager: the shared state, the
place of every caller, and the calls received by the store, each with the
number of the caller that made it (ghost). -/
structure Callers (σ ν : Type) where
  sys : Sys σ ν
  pcs : List PC
  trace : List (Nat × StoreCall)

/-- What the scheduler lets happen next: caller `i` takes one step, or the
clock moves to `now`. -/
inductive Action where
  | call (i : Nat)
  | tick (now : Nat)
  deriving DecidableEq, Repr

/-- The moment `N` goroutines have called `Token()` and none has taken a step. -/
def Callers.init (N : Nat) (s : Sys σ ν) : Callers σ ν :=
  { sys := s, pcs := List.replicate N PC.start, trace := [] }

/-- Caller `i` takes its next step; nothing happens when it cannot move. -/
def Callers.step (i : Nat) (c : Callers σ ν) : Callers σ ν :=
  match c.pcs[i]? with
  | none => c
  | some pc =>
    match tokenManager.TokenStep pc c.sys with
    | none => c
    | some (pc1, s1) =>
      { sys := s1, pcs := c.pcs.set i pc1, trace := c.trace ++ pc.event.map (fun e => (i, e)) }

/-- One action of the scheduler. -/
def Callers.act (c : Callers σ ν) : Action → Callers σ ν
  | Action.call i => c.step i
  | Action.tick now => { c with sys := { c.sys with now := now } }

/-- A schedule, run from left to right. -/
def Callers.run (sched : List Action) (c : Callers σ ν) : Callers σ ν :=
  sched.foldl Callers.act c

/-- Traces made of whole calls, one after the other: `Serial os tr` says that
`tr` is the store calls of the callers `os`, in this order, each caller
contributing `Get`, or `Get` and then `Save`, with nothing of another caller in
between. -/
inductive Serial : List Nat → List (Nat × StoreCall) → Prop where
  | nil : Serial [] []
  | get (os : List Nat) (tr : List (Nat × StoreCall)) (i : Nat) :
      Serial os tr → Serial (os ++ [i]) (tr ++ [(i, StoreCall.get)])
  | getSave (os : List Nat) (tr : List (Nat × StoreCall)) (i : Nat) (t : TokenPtr) :
      Serial os tr → Serial (os ++ [i]) (tr ++ [(i, StoreCall.get), (i, StoreCall.save t)])

/-- Three callers, scheduled so that each is interrupted by the others. -/
def demoSchedule : List Action :=
  [Action.call 1, Action.call 0, Action.call 2, Action.call 1, Action.call 0,
   Action.call 1, Action.tick 1200, Action.call 2, Action.call 1, Action.call 1,
   Action.call 2, Action.call 0, Action.call 2, Action.call 0, Action.call 2,
   Action.call 2, Action.call 0, Action.call 0, Action.call 2, Action.call 0,
   Action.call 0, Action.call 1, Action.call 0, Action.call 0, Action.call 0]

/-- The invariant of concurrent `Token()` calls started from the state `s0` by
`N` callers:

* `len`: there are `N` callers;
* `excl`: at most one caller is between `Lock` and `Unlock`;
* `lock`: the lock is held exactly when some caller is between `Lock` and `Unlock`;
* `calls`: the store has received the calls of the trace, after those of `s0`;
* `serial`: the trace is made of whole calls of distinct callers `os`, the
  callers that have made their `Get`; the call of a caller that may still
  `Save` is the last one. -/
structure Serialized (s0 : Sys σ ν) (N : Nat) (c : Callers σ ν) : Prop where
  len : c.pcs.length = N
  excl : ∀ (i j : Nat) (pi pj : PC), c.pcs[i]? = some pi → c.pcs[j]? = some pj →
    pi.inside = true → pj.inside = true → i = j
  lock : c.sys.mutex.locked = true ↔ ∃ (i : Nat) (pc : PC), c.pcs[i]? = some pc ∧ pc.inside = true
  calls : c.sys.calls = s0.calls ++ c.trace.map Prod.snd
  serial : ∃ os, Serial os c.trace ∧ os.Nodup ∧
    (∀ i : Nat, i ∈ os ↔ ∃ pc : PC, c.pcs[i]? = some pc ∧ pc.pastGet = true) ∧
    (∀ (i : Nat) (pc : PC), c.pcs[i]? = some pc → pc.pending = true →
      ∃ os0 tr0, Serial os0 tr0 ∧ os = os0 ++ [i] ∧ c.trace = tr0 ++ [(i, StoreCall.get)])

/-! ## Concrete collaborators -/

/-- A store in memory: `Get` returns the token held, `Save` replaces it. -/
def memStore : TokenStore TokenPtr :=
  { Get := fun d => ((d, none), d)
    Save := fun t _ => (none, t) }

/-- A store that holds a token, reads fine, and fails every write. -/
def readOnlyStore : TokenStore TokenPtr :=
  { Get := fun d => ((d, none), d)
    Save := fun _ d => (some ⟨"read-only store"⟩, d) }

/-- A store whose data source is unreachable. -/
def brokenStore : TokenStore Unit :=
  { Get := fun d => ((none, some ⟨"no token"⟩), d)
    Save := fun _ d => (some ⟨"cannot write"⟩, d) }

/-- A token that expired at time 100. -/
def oldToken : Token := { AccessToken := "old", RefreshToken := "r1", Expiry := some 100 }

/-- A token good until time 5000. -/
def freshToken : Token := { AccessToken := "new", RefreshToken := "r1", Expiry := some 5000 }

/-- A provider that exchanges the code `good-code` for `freshToken`, rejects
every other code, and whose refreshing token source yields `freshToken`. -/
def demoConfig : Config Unit :=
  { ClientID := "id", ClientSecret := "secret"
    Endpoint := { AuthURL := "https://provider.example/auth"
                  TokenURL := "https://provider.example/token" }
    RedirectURL := "https://app.example/cb", Scopes := ["read"]
    Exchange := fun _ code n =>
      if code = "good-code" then ((some freshToken, none), n)
      else ((none, some ⟨"invalid_grant"⟩), n)
    TokenSource := fun _ _ => { Token := fun n => ((some freshToken, none), n) } }

/-- A fresh `Authorization` over a memory store holding `oldToken`, at time 1000. -/
def expiredSys : Sys TokenPtr Unit :=
  Sys.start (NewAuthorization demoConfig memStore) (some oldToken) () 1000

/-- A fresh `Authorization` over a memory store holding `freshToken`, at time 1000. -/
def validSys : Sys TokenPtr Unit :=
  Sys.start (NewAuthorization demoConfig memStore) (some freshToken) () 1000

/-- A fresh `Authorization` over a read-only store holding `oldToken`, at time 1000. -/
def readOnlySys : Sys TokenPtr Unit :=
  Sys.start (NewAuthorization demoConfig readOnlyStore) (some oldToken) () 1000

/-- A fresh `Authorization` over the broken store, at time 1000. -/
def brokenSys : Sys Unit Unit :=
  Sys.start (NewAuthorization demoConfig brokenStore) () () 1000

/-- A fresh `Authorization` over an empty memory store, at time 1000. -/
def emptySys : Sys TokenPtr Unit :=
  Sys.start (NewAuthorization demoConfig memStore) none () 1000

/-! ## Stores that keep what was saved -/

/-- The store law "last Save wins for subsequent Get", for a store that does not
fail: `Holds d t` says that the data source in state `d` holds `t`.  Every
`Save` succeeds and leaves its token held; a `Get` on a state holding `t`
returns `t` and leaves it held. -/
structure LastSaveWins (st : TokenStore σ) (Holds : σ → TokenPtr → Prop) : Prop where
  save_ok : ∀ t d, (st.Save t d).1 = none ∧ Holds (st.Save t d).2 t
  get_ok : ∀ t d, Holds d t → (st.Get d).1 = (t, none) ∧ Holds (st.Get d).2 t

/-! ## Properties of `tokenManager` -/

/-- The body of `Token` neither takes nor releases the lock. -/
theorem TokenBody_mutex (s : Sys σ ν) : (tokenManager.TokenBody s).2.mutex = s.mutex := by
  unfold tokenManager.TokenBody storeSave storeGet
  dsimp only
  split_ifs <;> rfl

/-- With the lock free, `Token` returns what its body returns, in the state the
body leaves. -/
theorem Token_of_unlocked (s : Sys σ ν) (hlock : s.mutex.locked = false) :
    tokenManager.Token s = some (tokenManager.TokenBody s) := by
  obtain ⟨⟨cnf, ⟨st, ⟨b⟩, src⟩⟩, d, n, now, calls⟩ := s
  simp only [Sys.mutex] at hlock
  subst hlock
  unfold tokenManager.Token Mutex.Lock Mutex.Unlock tokenManager.TokenBody storeSave storeGet
  dsimp only
  split_ifs <;> first | rfl | contradiction

/-- Claim C1: when the store's `Get` succeeds with a token `t` that is not
valid, `Token()` (entered with the lock free) returns `t` together with exactly
the error of the store's `Save`, and the store has received, after the `Get`,
one `Save` with `t` and nothing else. -/
theorem Token_invalid_saves_once (s : Sys σ ν) (t : TokenPtr) (d1 : σ)
    (hlock : s.mutex.locked = false)
    (hget : s.store.Get s.data = ((t, none), d1))
    (hinv : Valid t s.now = false) :
    tokenManager.Token s =
      some ((t, (s.store.Save t d1).1),
            { s with data := (s.store.Save t d1).2,
                     calls := s.calls ++ [StoreCall.get, StoreCall.save t] }) := by
  rw [Token_of_unlocked s hlock]
  unfold tokenManager.TokenBody storeSave storeGet
  simp only [hget, hinv, Option.isSome_none, Bool.false_eq_true, if_false,
    List.append_assoc, List.singleton_append]
  cases h : (s.store.Save t d1).1 <;> simp

/-- Claim C1 at a store that holds the expired `oldToken` and fails every
write: `Token()` returns `oldToken` with the write error after one `Save`. -/
theorem Token_invalid_saves_once_witness :
    readOnlySys.mutex.locked = false ∧
    readOnlySys.store.Get readOnlySys.data = ((some oldToken, none), some oldToken) ∧
    Valid (some oldToken) readOnlySys.now = false ∧
    tokenManager.Token readOnlySys =
      some ((some oldToken, some ⟨"read-only store"⟩),
            { readOnlySys with
                data := some oldToken,
                calls := [StoreCall.get, StoreCall.save (some oldToken)] }) :=
  ⟨rfl, rfl, by decide,
    Token_invalid_saves_once readOnlySys (some oldToken) (some oldToken) rfl rfl (by decide)⟩

/-- Claim C2: when the store's `Get` succeeds with a valid token `t`, `Token()`
(entered with the lock free) returns `t` with no error, and the store has
received that one `Get` and no `Save`. -/
theorem Token_valid_no_save (s : Sys σ ν) (t : TokenPtr) (d1 : σ)
    (hlock : s.mutex.locked = false)
    (hget : s.store.Get s.data = ((t, none), d1))
    (hval : Valid t s.now = true) :
    tokenManager.Token s =
      some ((t, none), { s with data := d1, calls := s.calls ++ [StoreCall.get] }) := by
  rw [Token_of_unlocked s hlock]
  unfold tokenManager.TokenBody storeGet
  simp [hget, hval]

/-- Claim C2 at a memory store holding `freshToken`. -/
theorem Token_valid_no_save_witness :
    validSys.mutex.locked = false ∧
    validSys.store.Get validSys.data = ((some freshToken, none), some freshToken) ∧
    Valid (some freshToken) validSys.now = true ∧
    tokenManager.Token validSys =
      some ((some freshToken, none), { validSys with calls := [StoreCall.get] }) :=
  ⟨rfl, rfl, by decide,
    Token_valid_no_save validSys (some freshToken) (some freshToken) rfl rfl (by decide)⟩

/-- Claim C8: when the store's `Get` fails with error `e`, `Token()` (entered
with the lock free) returns no token and `e`, `Get()` returns `e`, and
`Client(ctx)` returns no client and `e`; each of them leaves the store with
that one `Get` and no `Save`, and everything else as it was. -/
theorem Get_error_verbatim (s : Sys σ ν) (ctx : Context) (t : TokenPtr) (e : Error) (d1 : σ)
    (hlock : s.mutex.locked = false)
    (hget : s.store.Get s.data = ((t, some e), d1)) :
    tokenManager.Token s =
        some ((none, some e), { s with data := d1, calls := s.calls ++ [StoreCall.get] }) ∧
    tokenManager.Get s =
        ((t, some e), { s with data := d1, calls := s.calls ++ [StoreCall.get] }) ∧
    Authorization.Client ctx s =
        ((none, some e), { s with data := d1, calls := s.calls ++ [StoreCall.get] }) := by
  refine ⟨?_, ?_, ?_⟩
  · rw [Token_of_unlocked s hlock]
    unfold tokenManager.TokenBody storeGet
    simp [hget]
  · unfold tokenManager.Get storeGet
    simp [hget]
  · unfold Authorization.Client tokenManager.Get storeGet
    simp [hget]

/-- Claim C8 at the broken store. -/
theorem Get_error_verbatim_witness :
    brokenSys.mutex.locked = false ∧
    brokenSys.store.Get brokenSys.data = ((none, some ⟨"no token"⟩), ()) ∧
    tokenManager.Token brokenSys =
        some ((none, some ⟨"no token"⟩), { brokenSys with calls := [StoreCall.get] }) ∧
    tokenManager.Get brokenSys =
        ((none, some ⟨"no token"⟩), { brokenSys with calls := [StoreCall.get] }) ∧
    Authorization.Client background brokenSys =
        ((none, some ⟨"no token"⟩), { brokenSys with calls := [StoreCall.get] }) :=
  ⟨rfl, rfl, Get_error_verbatim brokenSys background none ⟨"no token"⟩ () rfl rfl⟩

/-- A sequence of `Token()` calls that starts with the lock free returns from
every call and ends with the lock free. -/
theorem sequentialTokens_unlocked (times : List Nat) :
    ∀ s : Sys σ ν, s.mutex.locked = false →
      ∃ rs s2, sequentialTokens times s = some (rs, s2) ∧ rs.length = times.length ∧
        s2.mutex.locked = false := by
  induction times with
  | nil => intro s h; exact ⟨[], s, rfl, rfl, h⟩
  | cons now rest ih =>
    intro s h
    have h1 : ({ s with now := now } : Sys σ ν).mutex.locked = false := h
    have hb : (tokenManager.TokenBody ({ s with now := now } : Sys σ ν)).2.mutex.locked = false := by
      rw [TokenBody_mutex]; exact h
    obtain ⟨rs, s2, hrun, hlen, hfree⟩ := ih _ hb
    refine ⟨(tokenManager.TokenBody ({ s with now := now } : Sys σ ν)).1 :: rs, s2, ?_, ?_, hfree⟩
    · simp only [sequentialTokens, Token_of_unlocked _ h1, hrun]
    · simp [hlen]

/-- Claim C10: a `Token()` call entered with the lock free returns, whatever
the store does, and leaves the lock free; and so does every finite sequence of
`Token()` calls made one after the other, at any clock readings. -/
theorem Token_releases_lock (s : Sys σ ν) (hlock : s.mutex.locked = false) :
    (∃ r s1, tokenManager.Token s = some (r, s1) ∧ s1.mutex.locked = false) ∧
    ∀ times : List Nat, ∃ rs s2, sequentialTokens times s = some (rs, s2) ∧
      rs.length = times.length ∧ s2.mutex.locked = false := by
  refine ⟨⟨(tokenManager.TokenBody s).1, (tokenManager.TokenBody s).2, ?_, ?_⟩, ?_⟩
  · exact Token_of_unlocked s hlock
  · rw [TokenBody_mutex]; exact hlock
  · intro times
    exact sequentialTokens_unlocked times s hlock

/-- Claim C10 at a read-only store holding an expired token (the `Save` of
every call fails). -/
theorem Token_releases_lock_witness :
    readOnlySys.mutex.locked = false ∧
    ((∃ r s1, tokenManager.Token readOnlySys = some (r, s1) ∧ s1.mutex.locked = false) ∧
      ∀ times : List Nat, ∃ rs s2, sequentialTokens times readOnlySys = some (rs, s2) ∧
        rs.length = times.length ∧ s2.mutex.locked = false) :=
  ⟨rfl, Token_releases_lock readOnlySys rfl⟩

/-! ## Properties of `Authorization` -/

/-- Claim C4: when the provider exchanges `code` for a token `t` without error,
`AuthorizeFromCode(ctx, code)` returns exactly the error of the store's `Save`
(none when the write succeeds), and the store has received one `Save` with `t`
and no `Get`. -/
theorem AuthorizeFromCode_saves_once (s : Sys σ ν) (ctx : Context) (code : String)
    (t : TokenPtr) (n1 : ν)
    (hex : s.Config.Exchange ctx code s.net = ((t, none), n1)) :
    Authorization.AuthorizeFromCode ctx code s =
      ((s.store.Save t s.data).1,
        { s with net := n1, data := (s.store.Save t s.data).2,
                 calls := s.calls ++ [StoreCall.save t] }) := by
  unfold Authorization.AuthorizeFromCode tokenManager.Save storeSave
  simp only [hex, Option.isSome_none, Bool.false_eq_true, if_false]
  cases h : (s.store.Save t s.data).1 <;> simp

/-- Claim C4 at an empty memory store and the code `good-code`. -/
theorem AuthorizeFromCode_saves_once_witness :
    emptySys.Config.Exchange background "good-code" emptySys.net = ((some freshToken, none), ()) ∧
    Authorization.AuthorizeFromCode background "good-code" emptySys =
      (none, { emptySys with data := some freshToken,
                             calls := [StoreCall.save (some freshToken)] }) :=
  ⟨by decide, AuthorizeFromCode_saves_once emptySys background "good-code" (some freshToken) ()
    (by decide)⟩

/-- Claim C5: when the provider rejects `code` with error `e`,
`AuthorizeFromCode(ctx, code)` returns `e`; the store receives no call and its
data source is left as it was. -/
theorem AuthorizeFromCode_rejected (s : Sys σ ν) (ctx : Context) (code : String)
    (t : TokenPtr) (e : Error) (n1 : ν)
    (hex : s.Config.Exchange ctx code s.net = ((t, some e), n1)) :
    Authorization.AuthorizeFromCode ctx code s = (some e, { s with net := n1 }) ∧
    (Authorization.AuthorizeFromCode ctx code s).2.calls = s.calls ∧
    (Authorization.AuthorizeFromCode ctx code s).2.data = s.data := by
  have h : Authorization.AuthorizeFromCode ctx code s = (some e, { s with net := n1 }) := by
    unfold Authorization.AuthorizeFromCode
    simp [hex]
  exact ⟨h, by rw [h], by rw [h]⟩

/-- Claim C5 at a memory store holding `oldToken` and the code `bad-code`. -/
theorem AuthorizeFromCode_rejected_witness :
    expiredSys.Config.Exchange background "bad-code" expiredSys.net =
      ((none, some ⟨"invalid_grant"⟩), ()) ∧
    Authorization.AuthorizeFromCode background "bad-code" expiredSys =
      (some ⟨"invalid_grant"⟩, expiredSys) ∧
    (Authorization.AuthorizeFromCode background "bad-code" expiredSys).2.calls = [] ∧
    (Authorization.AuthorizeFromCode background "bad-code" expiredSys).2.data = some oldToken :=
  ⟨by decide, AuthorizeFromCode_rejected expiredSys background "bad-code" none
    ⟨"invalid_grant"⟩ () (by decide)⟩

/-- Claim C9: for every `state`, `AuthCodeURL(state)` is the authorization URL
that the OAuth2 library builds from the config for that state and the single
option `AccessTypeOffline`: it points at the config's authorization endpoint,
its `state` parameter reads `state` (an empty state sets none, and reads as the
empty string) and its `access_type` parameter reads `offline`.  The method
reads the config only: it returns a URL, no error and no new state. -/
theorem AuthCodeURL_state_offline (s : Sys σ ν) (state : String) :
    Authorization.AuthCodeURL s state = s.Config.AuthCodeURL state [AccessTypeOffline] ∧
    (Authorization.AuthCodeURL s state).endpoint = s.Config.Endpoint.AuthURL ∧
    getValue "state" (Authorization.AuthCodeURL s state).query = state ∧
    getValue "access_type" (Authorization.AuthCodeURL s state).query = "offline" := by
  refine ⟨rfl, rfl, ?_, ?_⟩ <;>
    simp only [Authorization.AuthCodeURL, Config.AuthCodeURL, AccessTypeOffline, List.foldl] <;>
    split_ifs <;> simp_all [setValue, getValue]

/-- On a store that keeps what was saved and holds `t`, the body of `Token`
returns `t` without error, whether `t` is valid or not. -/
theorem TokenBody_of_holds (s : Sys σ ν) (Holds : σ → TokenPtr → Prop)
    (hlaw : LastSaveWins s.store Holds) (t : TokenPtr) (h : Holds s.data t) :
    (tokenManager.TokenBody s).1 = (t, none) := by
  obtain ⟨hg, -⟩ := hlaw.get_ok t s.data h
  have h1 : (s.store.Get s.data).1.1 = t := by rw [hg]
  have h2 : (s.store.Get s.data).1.2 = none := by rw [hg]
  have h3 := (hlaw.save_ok t (s.store.Get s.data).2).1
  unfold tokenManager.TokenBody storeSave storeGet
  simp only [h1, h2, h3, Option.isSome_none, Bool.false_eq_true, if_false]
  split_ifs <;> rfl

/-- When the store's `Get` succeeds with `t`, `Client(ctx)` returns a client
whose token source holds `t` and refreshes through the manager, and sets `src`
to the config's token source for `t`. -/
theorem Client_of_get (s : Sys σ ν) (ctx : Context) (t : TokenPtr)
    (h : (s.store.Get s.data).1 = (t, none)) :
    Authorization.Client ctx s =
      ((some (NewClient background (ReuseTokenSource t tokenManager.Token)), none),
        { s with data := (s.store.Get s.data).2,
                 calls := s.calls ++ [StoreCall.get],
                 a.tokenManager.src := some (s.Config.TokenSource ctx t) }) := by
  have h1 : (s.store.Get s.data).1.1 = t := by rw [h]
  have h2 : (s.store.Get s.data).1.2 = none := by rw [h]
  unfold Authorization.Client tokenManager.Get storeGet
  simp [h1, h2]

/-- When the provider exchanges `code` for `t` and the store's `Save` of `t`
succeeds, `AuthorizeFromCode` returns no error and leaves the saved data. -/
theorem AuthorizeFromCode_of_saved (s : Sys σ ν) (ctx : Context) (code : String)
    (t : TokenPtr) (n1 : ν)
    (hex : s.Config.Exchange ctx code s.net = ((t, none), n1))
    (hsave : (s.store.Save t s.data).1 = none) :
    Authorization.AuthorizeFromCode ctx code s =
      (none, { s with net := n1, data := (s.store.Save t s.data).2,
                      calls := s.calls ++ [StoreCall.save t] }) := by
  unfold Authorization.AuthorizeFromCode tokenManager.Save storeSave
  simp [hex, hsave]

/-- On a store that keeps what was saved and holds `t`, with the lock free, the
decorator around the manager yields `t` without error. -/
theorem reuse_Token_of_holds (s : Sys σ ν) (Holds : σ → TokenPtr → Prop)
    (hlaw : LastSaveWins s.store Holds) (t : TokenPtr) (h : Holds s.data t)
    (hlock : s.mutex.locked = false) :
    ∃ r3 s3, (ReuseTokenSource t tokenManager.Token).Token s = some (((t, none), r3), s3) := by
  by_cases hv : Valid t s.now = true
  · refine ⟨ReuseTokenSource t tokenManager.Token, s, ?_⟩
    simp only [ReuseTokenSource, reuseTokenSource.Token, hv, if_true]
  · have hb := TokenBody_of_holds s Holds hlaw t h
    have hb1 : (tokenManager.TokenBody s).1.1 = t := by rw [hb]
    have hb2 : (tokenManager.TokenBody s).1.2 = none := by rw [hb]
    refine ⟨ReuseTokenSource t tokenManager.Token, (tokenManager.TokenBody s).2, ?_⟩
    simp only [ReuseTokenSource, reuseTokenSource.Token, hv, Bool.false_eq_true, if_false]
    rw [Token_of_unlocked _ hlock]
    simp only [hb1, hb2, Option.isSome_none, Bool.false_eq_true, if_false]

/-- Claim C7: on a store that keeps what was saved and does not fail, with the
lock free, when the provider exchanges `code` for a token `tk`:
`AuthorizeFromCode(ctx, code)` returns no error; `Client(ctx2)`, called next
(at any clock reading), returns a client and no error; and the token source of
that client, asked for a token (at any clock reading), yields without error a
token with the access value of `tk`, in fact `tk` itself. -/
theorem AuthorizeFromCode_Client_roundtrip (s : Sys σ ν) (Holds : σ → TokenPtr → Prop)
    (hlaw : LastSaveWins s.store Holds) (hlock : s.mutex.locked = false)
    (ctx ctx2 : Context) (code : String) (tk : Token) (n1 : ν) (now2 now3 : Nat)
    (hex : s.Config.Exchange ctx code s.net = ((some tk, none), n1)) :
    (Authorization.AuthorizeFromCode ctx code s).1 = none ∧
    ∃ c s2,
      Authorization.Client ctx2
          { (Authorization.AuthorizeFromCode ctx code s).2 with now := now2 }
        = ((some c, none), s2) ∧
      ∃ tok r3 s3,
        c.Source.Token { s2 with now := now3 } = some (((some tok, none), r3), s3) ∧
        tok.AccessToken = tk.AccessToken ∧ tok = tk := by
  obtain ⟨hs1, hs2⟩ := hlaw.save_ok (some tk) s.data
  obtain ⟨hg1, hg2⟩ := hlaw.get_ok (some tk) _ hs2
  rw [AuthorizeFromCode_of_saved s ctx code (some tk) n1 hex hs1]
  refine ⟨rfl, _, _, Client_of_get _ ctx2 (some tk) hg1, ?_⟩
  obtain ⟨r3, s3, h3⟩ := reuse_Token_of_holds
    ({ s with net := n1, data := (s.store.Get (s.store.Save (some tk) s.data).2).2,
              calls := s.calls ++ [StoreCall.save (some tk)] ++ [StoreCall.get],
              a.tokenManager.src := some (s.Config.TokenSource ctx2 (some tk)),
              now := now3 } : Sys σ ν)
    Holds hlaw (some tk) hg2 hlock
  exact ⟨tk, r3, s3, h3, rfl, rfl⟩

/-- The memory store keeps what was saved and does not fail. -/
theorem memStore_lastSaveWins : LastSaveWins memStore (fun d t => d = t) :=
  { save_ok := fun _ _ => ⟨rfl, rfl⟩
    get_ok := fun t d h => by subst h; exact ⟨rfl, rfl⟩ }

/-- Claim C7 at an empty memory store: `good-code` is exchanged for
`freshToken`, the client is built at time 1000 and asked for a token at time
9000, when `freshToken` has expired. -/
theorem AuthorizeFromCode_Client_roundtrip_witness :
    LastSaveWins emptySys.store (fun d t => d = t) ∧
    emptySys.mutex.locked = false ∧
    emptySys.Config.Exchange background "good-code" emptySys.net = ((some freshToken, none), ()) ∧
    ((Authorization.AuthorizeFromCode background "good-code" emptySys).1 = none ∧
      ∃ c s2,
        Authorization.Client background
            { (Authorization.AuthorizeFromCode background "good-code" emptySys).2 with now := 1000 }
          = ((some c, none), s2) ∧
        ∃ tok r3 s3,
          c.Source.Token { s2 with now := 9000 } = some (((some tok, none), r3), s3) ∧
          tok.AccessToken = freshToken.AccessToken ∧ tok = freshToken) :=
  ⟨memStore_lastSaveWins, rfl, by decide,
    AuthorizeFromCode_Client_roundtrip emptySys (fun d t => d = t) memStore_lastSaveWins rfl
      background background "good-code" freshToken () 1000 9000 (by decide)⟩

/-- A token is not valid exactly when it is `nil`, has no access value, or has
expired. -/
theorem Valid_eq_false_iff (t : TokenPtr) (now : Nat) :
    Valid t now = false ↔
      t = none ∨ ∃ tok, t = some tok ∧ (tok.AccessToken = "" ∨ tok.expired now = true) := by
  cases t with
  | none => simp [Valid]
  | some tok =>
    cases h : tok.expired now <;> simp [Valid, h]

/-- Claim C6, the code at a store holding the expired `oldToken`, with a config
whose refreshing token source would yield `freshToken`: `Client` stores that
source in `src`, yet the client's token source, asked for a token, hands out
`oldToken`, still expired; the store has received a `Save` with `oldToken` and
keeps `oldToken`; the provider was never asked. -/
theorem Client_refresh_keeps_expired_token :
    ∃ c s1,
      Authorization.Client background expiredSys = ((some c, none), s1) ∧
      (s1.src.map fun src => (src.Token s1.net).1) = some (some freshToken, none) ∧
      ∃ r2 s2,
        c.Source.Token s1 = some (((some oldToken, none), r2), s2) ∧
        Valid (some oldToken) s2.now = false ∧
        s2.calls = [StoreCall.get, StoreCall.get, StoreCall.save (some oldToken)] ∧
        s2.data = some oldToken ∧
        r2.t = some oldToken :=
  ⟨NewClient background (ReuseTokenSource (some oldToken) tokenManager.Token),
    (Authorization.Client background expiredSys).2, rfl, rfl,
    ReuseTokenSource (some oldToken) tokenManager.Token,
    (tokenManager.TokenBody (Authorization.Client background expiredSys).2).2,
    rfl, by decide, by decide, by decide, rfl⟩

/-! ## Concurrent callers -/

/-- Looking up a caller after caller `i` has moved. -/
theorem pcs_set_lookup {l : List PC} {i : Nat} {a : PC} (b : PC) (h : l[i]? = some a) (j : Nat) :
    (l.set i b)[j]? = if j = i then some b else l[j]? := by
  have hi : i < l.length := by
    rcases List.getElem?_eq_some.1 h with ⟨hi, -⟩
    exact hi
  rw [List.getElem?_set]
  by_cases hij : i = j
  · subst hij; simp [hi]
  · have hji : ¬ j = i := fun h => hij h.symm
    simp [hij, hji]

/-- A call that finds the lock held does not proceed. -/
theorem Token_of_locked (s : Sys σ ν) (h : s.mutex.locked = true) :
    tokenManager.Token s = none := by
  simp only [Sys.mutex] at h
  simp [tokenManager.Token, Mutex.Lock, h]

/-- The steps of a caller, kind by kind: what becomes of its place and of the
lock. -/
theorem TokenStep_cases (pc pc1 : PC) (s s1 : Sys σ ν)
    (h : tokenManager.TokenStep pc s = some (pc1, s1)) :
    (pc = PC.start ∧ pc1 = PC.locked ∧ s.mutex.locked = false ∧ s1.mutex.locked = true) ∨
    (pc = PC.locked ∧ (∃ t e, pc1 = PC.got t e) ∧ s1.mutex = s.mutex) ∨
    ((∃ t e, pc = PC.got t e ∧ (pc1 = PC.invalid t ∨ ∃ t1 e1, pc1 = PC.ret t1 e1)) ∧
      s1.mutex = s.mutex) ∨
    ((∃ t, pc = PC.invalid t ∧ ∃ e, pc1 = PC.ret t e) ∧ s1.mutex = s.mutex) ∨
    ((∃ t e, pc = PC.ret t e ∧ pc1 = PC.done t e) ∧
      s.mutex.locked = true ∧ s1.mutex.locked = false) := by
  cases pc with
  | start =>
    left
    simp only [tokenManager.TokenStep, Mutex.Lock] at h
    split_ifs at h with hl
    simp only [Option.some.injEq, Prod.mk.injEq] at h
    obtain ⟨h1, h2⟩ := h
    subst h1 h2
    exact ⟨rfl, rfl, by simpa [Sys.mutex] using hl, rfl⟩
  | locked =>
    right; left
    simp only [tokenManager.TokenStep, storeGet, Option.some.injEq, Prod.mk.injEq] at h
    obtain ⟨h1, h2⟩ := h
    subst h1 h2
    exact ⟨rfl, ⟨_, _, rfl⟩, rfl⟩
  | got t e =>
    right; right; left
    simp only [tokenManager.TokenStep] at h
    split_ifs at h <;>
      simp only [Option.some.injEq, Prod.mk.injEq] at h <;>
      obtain ⟨h1, h2⟩ := h <;> subst h1 h2
    · exact ⟨⟨_, _, rfl, Or.inr ⟨_, _, rfl⟩⟩, rfl⟩
    · exact ⟨⟨_, _, rfl, Or.inr ⟨_, _, rfl⟩⟩, rfl⟩
    · exact ⟨⟨_, _, rfl, Or.inl rfl⟩, rfl⟩
  | invalid t =>
    right; right; right; left
    simp only [tokenManager.TokenStep, storeSave] at h
    split_ifs at h <;>
      simp only [Option.some.injEq, Prod.mk.injEq] at h <;>
      obtain ⟨h1, h2⟩ := h <;> subst h1 h2
    · exact ⟨⟨_, rfl, _, rfl⟩, rfl⟩
    · exact ⟨⟨_, rfl, _, rfl⟩, rfl⟩
  | ret t e =>
    right; right; right; right
    simp only [tokenManager.TokenStep, Mutex.Unlock] at h
    split_ifs at h with hl
    simp only [Option.some.injEq, Prod.mk.injEq] at h
    obtain ⟨h1, h2⟩ := h
    subst h1 h2
    exact ⟨⟨_, _, rfl, rfl⟩, by simpa [Sys.mutex] using hl, rfl⟩
  | done t e =>
    simp [tokenManager.TokenStep] at h

/-- A step of a caller adds its call, if it makes one, to the log of the store. -/
theorem TokenStep_calls (pc pc1 : PC) (s s1 : Sys σ ν)
    (h : tokenManager.TokenStep pc s = some (pc1, s1)) :
    s1.calls = s.calls ++ pc.event := by
  cases pc with
  | start =>
    simp only [tokenManager.TokenStep, Mutex.Lock] at h
    split_ifs at h
    simp only [Option.some.injEq, Prod.mk.injEq] at h
    obtain ⟨-, h2⟩ := h
    subst h2
    simp [PC.event]
  | locked =>
    simp only [tokenManager.TokenStep, storeGet, Option.some.injEq, Prod.mk.injEq] at h
    obtain ⟨-, h2⟩ := h
    subst h2
    simp [PC.event]
  | got t e =>
    simp only [tokenManager.TokenStep] at h
    split_ifs at h <;>
      simp only [Option.some.injEq, Prod.mk.injEq] at h <;>
      obtain ⟨-, h2⟩ := h <;> subst h2 <;> simp [PC.event]
  | invalid t =>
    simp only [tokenManager.TokenStep, storeSave] at h
    split_ifs at h <;>
      simp only [Option.some.injEq, Prod.mk.injEq] at h <;>
      obtain ⟨-, h2⟩ := h <;> subst h2 <;> simp [PC.event]
  | ret t e =>
    simp only [tokenManager.TokenStep, Mutex.Unlock] at h
    split_ifs at h
    simp only [Option.some.injEq, Prod.mk.injEq] at h
    obtain ⟨-, h2⟩ := h
    subst h2
    simp [PC.event]
  | done t e =>
    simp [tokenManager.TokenStep] at h


/-- Every caller of a fresh group stands at the start. -/
theorem init_lookup (N : Nat) (s : Sys σ ν) (i : Nat) (pc : PC)
    (h : (Callers.init N s).pcs[i]? = some pc) : pc = PC.start := by
  simp only [Callers.init, List.getElem?_replicate] at h
  split_ifs at h
  simp only [Option.some.injEq] at h
  exact h.symm

/-- The invariant holds when the callers arrive at a manager whose lock is free. -/
theorem Serialized_init (s : Sys σ ν) (N : Nat) (hlock : s.mutex.locked = false) :
    Serialized s N (Callers.init N s) := by
  refine ⟨by simp [Callers.init], ?_, ?_, by simp [Callers.init], ?_⟩
  · intro i j pi pj hi _ hin _
    rw [init_lookup N s i pi hi] at hin
    simp [PC.inside] at hin
  · constructor
    · intro h
      have h2 : s.mutex.locked = true := h
      rw [hlock] at h2
      cases h2
    · rintro ⟨i, pc, hi, hin⟩
      rw [init_lookup N s i pc hi] at hin
      simp [PC.inside] at hin
  · refine ⟨[], Serial.nil, List.nodup_nil, ?_, ?_⟩
    · intro i
      constructor
      · intro h; cases h
      · rintro ⟨pc, hi, hp⟩
        rw [init_lookup N s i pc hi] at hp
        simp [PC.pastGet] at hp
    · intro i pc hi hp
      rw [init_lookup N s i pc hi] at hp
      simp [PC.pending] at hp

/-- Mutual exclusion is kept when caller `i` moves from `pc` to `pc1`, provided
it only gets inside when it was inside before or nobody was. -/
theorem excl_step (pcs : List PC) (i : Nat) (pc pc1 : PC) (hi : pcs[i]? = some pc)
    (hex : ∀ (a b : Nat) (pa pb : PC), pcs[a]? = some pa → pcs[b]? = some pb →
      pa.inside = true → pb.inside = true → a = b)
    (hnew : pc1.inside = true →
      pc.inside = true ∨ ∀ (j : Nat) (pj : PC), pcs[j]? = some pj → pj.inside = false) :
    ∀ (a b : Nat) (pa pb : PC), (pcs.set i pc1)[a]? = some pa → (pcs.set i pc1)[b]? = some pb →
      pa.inside = true → pb.inside = true → a = b := by
  intro a b pa pb ha hb hia hib
  rw [pcs_set_lookup pc1 hi] at ha hb
  by_cases hai : a = i <;> by_cases hbi : b = i
  · rw [hai, hbi]
  · simp only [hai, if_true, hbi, if_false, Option.some.injEq] at ha hb
    subst ha
    rcases hnew hia with h | h
    · rw [hai]; exact hex i b pc pb hi hb h hib
    · rw [h b pb hb] at hib; cases hib
  · simp only [hai, if_false, hbi, if_true, Option.some.injEq] at ha hb
    subst hb
    rcases hnew hib with h | h
    · rw [hbi]; exact hex a i pa pc ha hi hia h
    · rw [h a pa ha] at hia; cases hia
  · simp only [hai, if_false, hbi] at ha hb
    exact hex a b pa pb ha hb hia hib

/-- The shape of the trace is kept by a step that makes no call on the store
and leaves the caller on the same side of its `Get`. -/
theorem serial_keep (pcs : List PC) (tr : List (Nat × StoreCall)) (i : Nat) (pc pc1 : PC)
    (hi : pcs[i]? = some pc) (hpast : pc1.pastGet = pc.pastGet)
    (hpend : pc1.pending = true → pc.pending = true)
    (h : ∃ os, Serial os tr ∧ os.Nodup ∧
      (∀ i : Nat, i ∈ os ↔ ∃ pc : PC, pcs[i]? = some pc ∧ pc.pastGet = true) ∧
      (∀ (i : Nat) (pc : PC), pcs[i]? = some pc → pc.pending = true →
        ∃ os0 tr0, Serial os0 tr0 ∧ os = os0 ++ [i] ∧ tr = tr0 ++ [(i, StoreCall.get)])) :
    ∃ os, Serial os tr ∧ os.Nodup ∧
      (∀ j : Nat, j ∈ os ↔ ∃ pj : PC, (pcs.set i pc1)[j]? = some pj ∧ pj.pastGet = true) ∧
      (∀ (j : Nat) (pj : PC), (pcs.set i pc1)[j]? = some pj → pj.pending = true →
        ∃ os0 tr0, Serial os0 tr0 ∧ os = os0 ++ [j] ∧ tr = tr0 ++ [(j, StoreCall.get)]) := by
  obtain ⟨os, hser, hnd, hmem, hp⟩ := h
  refine ⟨os, hser, hnd, ?_, ?_⟩
  · intro j
    rw [hmem j, pcs_set_lookup pc1 hi]
    by_cases hji : j = i
    · subst hji
      simp only [if_true, Option.some.injEq, exists_eq_left', hi, hpast]
    · simp only [hji, if_false]
  · intro j pj hj hpj
    rw [pcs_set_lookup pc1 hi] at hj
    by_cases hji : j = i
    · subst hji
      simp only [if_true, Option.some.injEq] at hj
      subst hj
      exact hp j pc hi (hpend hpj)
    · simp only [hji, if_false] at hj
      exact hp j pj hj hpj

/-- A caller that may still `Save` is between `Lock` and `Unlock`. -/
theorem inside_of_pending (pc : PC) (h : pc.pending = true) : pc.inside = true := by
  cases pc <;> simp [PC.pending] at h <;> rfl

/-- The callers past their `Get` stay the same when caller `i` moves without
crossing its `Get`. -/
theorem pastGet_keep (pcs : List PC) (os : List Nat) (i : Nat) (pc pc1 : PC)
    (hi : pcs[i]? = some pc) (hpast : pc1.pastGet = pc.pastGet)
    (hmem : ∀ j : Nat, j ∈ os ↔ ∃ pj : PC, pcs[j]? = some pj ∧ pj.pastGet = true) :
    ∀ j : Nat, j ∈ os ↔ ∃ pj : PC, (pcs.set i pc1)[j]? = some pj ∧ pj.pastGet = true := by
  intro j
  rw [hmem j, pcs_set_lookup pc1 hi]
  by_cases hji : j = i
  · subst hji
    simp only [if_true, Option.some.injEq, exists_eq_left', hi, hpast]
  · simp only [hji, if_false]

/-- While caller `i` is between `Lock` and `Unlock`, no other caller may still
`Save`. -/
theorem no_other_pending (pcs : List PC) (i : Nat) (pc : PC) (hi : pcs[i]? = some pc)
    (hin : pc.inside = true)
    (hex : ∀ (a b : Nat) (pa pb : PC), pcs[a]? = some pa → pcs[b]? = some pb →
      pa.inside = true → pb.inside = true → a = b)
    (j : Nat) (pj : PC) (hji : ¬ j = i) (hj : pcs[j]? = some pj) : pj.pending = false := by
  cases hp : pj.pending with
  | false => rfl
  | true => exact absurd (hex j i pj pc hj hi (inside_of_pending pj hp) hin) hji

/-- Every step of every caller keeps the invariant. -/
theorem Serialized_step (s0 : Sys σ ν) (N : Nat) (c : Callers σ ν) (i : Nat)
    (h : Serialized s0 N c) : Serialized s0 N (c.step i) := by
  cases hi : c.pcs[i]? with
  | none =>
    have hsame : c.step i = c := by simp [Callers.step, hi]
    rw [hsame]; exact h
  | some pc =>
    cases hs : tokenManager.TokenStep pc c.sys with
    | none =>
      have hsame : c.step i = c := by simp [Callers.step, hi, hs]
      rw [hsame]; exact h
    | some r =>
      obtain ⟨pc1, s1⟩ := r
      have hstep : c.step i =
          { sys := s1
            pcs := c.pcs.set i pc1
            trace := c.trace ++ pc.event.map (fun e => (i, e)) } := by
        simp [Callers.step, hi, hs]
      rw [hstep]
      have hcalls := TokenStep_calls pc pc1 c.sys s1 hs
      have look := pcs_set_lookup pc1 hi
      have hnobody : c.sys.mutex.locked = false →
          ∀ (j : Nat) (pj : PC), c.pcs[j]? = some pj → pj.inside = false := by
        intro hf j pj hj
        cases hin : pj.inside with
        | false => rfl
        | true =>
          have := h.lock.2 ⟨j, pj, hj, hin⟩
          rw [hf] at this
          cases this
      have hlen : (c.pcs.set i pc1).length = N := by rw [List.length_set]; exact h.len
      have hcallsField : s1.calls =
          s0.calls ++ (c.trace ++ pc.event.map (fun e => (i, e))).map Prod.snd := by
        rw [hcalls, h.calls]
        simp [List.map_append, Function.comp]
      rcases TokenStep_cases pc pc1 c.sys s1 hs with
        ⟨rfl, rfl, hf, ht⟩ | ⟨rfl, ⟨t, e, rfl⟩, hm⟩ | ⟨⟨t, e, rfl, hpc1⟩, hm⟩ |
        ⟨⟨t, rfl, e, rfl⟩, hm⟩ | ⟨⟨t, e, rfl, rfl⟩, ht, hf⟩
      · -- the caller takes the lock
        refine ⟨hlen, ?_, ?_, hcallsField, ?_⟩
        · exact excl_step c.pcs i PC.start PC.locked hi h.excl (fun _ => Or.inr (hnobody hf))
        · constructor
          · intro _
            exact ⟨i, PC.locked, by rw [look]; simp, rfl⟩
          · intro _
            exact ht
        · have htr : c.trace ++ PC.start.event.map (fun e => (i, e)) = c.trace := by
            simp [PC.event]
          rw [htr]
          exact serial_keep c.pcs c.trace i PC.start PC.locked hi rfl (fun hp => by cases hp)
            h.serial
      · -- the caller reads the store
        have hlk : c.sys.mutex.locked = true := h.lock.2 ⟨i, PC.locked, hi, rfl⟩
        refine ⟨hlen, ?_, ?_, hcallsField, ?_⟩
        · exact excl_step c.pcs i PC.locked (PC.got t e) hi h.excl (fun _ => Or.inl rfl)
        · constructor
          · intro _
            exact ⟨i, PC.got t e, by rw [look]; simp, rfl⟩
          · intro _
            show s1.mutex.locked = true
            rw [hm]; exact hlk
        · obtain ⟨os, hser, hnd, hmem, hp⟩ := h.serial
          have hnot : i ∉ os := by
            intro hio
            obtain ⟨p, hp1, hp2⟩ := (hmem i).1 hio
            rw [hi] at hp1
            simp only [Option.some.injEq] at hp1
            subst hp1
            simp [PC.pastGet] at hp2
          have htr : c.trace ++ PC.locked.event.map (fun e => (i, e)) =
              c.trace ++ [(i, StoreCall.get)] := by
            simp [PC.event]
          rw [htr]
          refine ⟨os ++ [i], Serial.get os c.trace i hser, ?_, ?_, ?_⟩
          · rw [List.nodup_append]
            refine ⟨hnd, List.nodup_singleton i, ?_⟩
            intro x hx hx2
            simp only [List.mem_singleton] at hx2
            subst hx2
            exact hnot hx
          · intro j
            rw [look]
            by_cases hji : j = i
            · subst hji
              simp [PC.pastGet]
            · simp only [hji, if_false, List.mem_append, List.mem_singleton, or_false]
              exact hmem j
          · intro j pj hj hpj
            rw [look] at hj
            by_cases hji : j = i
            · subst hji
              exact ⟨os, c.trace, hser, rfl, rfl⟩
            · simp only [hji, if_false] at hj
              rw [no_other_pending c.pcs i PC.locked hi rfl h.excl j pj hji hj] at hpj
              cases hpj
      · -- the caller looks at what it read
        have hlk : c.sys.mutex.locked = true := h.lock.2 ⟨i, PC.got t e, hi, rfl⟩
        have hin1 : pc1.inside = true := by
          rcases hpc1 with rfl | ⟨t1, e1, rfl⟩ <;> rfl
        have hpast1 : pc1.pastGet = (PC.got t e).pastGet := by
          rcases hpc1 with rfl | ⟨t1, e1, rfl⟩ <;> rfl
        have hev : (PC.got t e).event = [] := rfl
        refine ⟨hlen, ?_, ?_, hcallsField, ?_⟩
        · exact excl_step c.pcs i (PC.got t e) pc1 hi h.excl (fun _ => Or.inl rfl)
        · constructor
          · intro _
            exact ⟨i, pc1, by rw [look]; simp, hin1⟩
          · intro _
            show s1.mutex.locked = true
            rw [hm]; exact hlk
        · have htr : c.trace ++ (PC.got t e).event.map (fun e => (i, e)) = c.trace := by
            simp [PC.event]
          rw [htr]
          exact serial_keep c.pcs c.trace i (PC.got t e) pc1 hi hpast1 (fun _ => rfl) h.serial
      · -- the caller writes the store
        have hlk : c.sys.mutex.locked = true := h.lock.2 ⟨i, PC.invalid t, hi, rfl⟩
        refine ⟨hlen, ?_, ?_, hcallsField, ?_⟩
        · exact excl_step c.pcs i (PC.invalid t) (PC.ret t e) hi h.excl (fun _ => Or.inl rfl)
        · constructor
          · intro _
            exact ⟨i, PC.ret t e, by rw [look]; simp, rfl⟩
          · intro _
            show s1.mutex.locked = true
            rw [hm]; exact hlk
        · obtain ⟨os, hser, hnd, hmem, hp⟩ := h.serial
          obtain ⟨os0, tr0, hser0, hos, htr0⟩ := hp i (PC.invalid t) hi rfl
          have htr : c.trace ++ (PC.invalid t).event.map (fun e => (i, e)) =
              tr0 ++ [(i, StoreCall.get), (i, StoreCall.save t)] := by
            rw [htr0]
            simp [PC.event]
          rw [htr]
          refine ⟨os, ?_, hnd, ?_, ?_⟩
          · rw [hos]
            exact Serial.getSave os0 tr0 i t hser0
          · exact pastGet_keep c.pcs os i (PC.invalid t) (PC.ret t e) hi rfl hmem
          · intro j pj hj hpj
            rw [look] at hj
            by_cases hji : j = i
            · subst hji
              simp only [if_true, Option.some.injEq] at hj
              subst hj
              cases hpj
            · simp only [hji, if_false] at hj
              rw [no_other_pending c.pcs i (PC.invalid t) hi rfl h.excl j pj hji hj] at hpj
              cases hpj
      · -- the caller releases the lock
        refine ⟨hlen, ?_, ?_, hcallsField, ?_⟩
        · exact excl_step c.pcs i (PC.ret t e) (PC.done t e) hi h.excl (fun hd => by cases hd)
        · constructor
          · intro hl
            have hl2 : s1.mutex.locked = true := hl
            rw [hf] at hl2
            cases hl2
          · rintro ⟨j, pj, hj, hpj⟩
            rw [look] at hj
            by_cases hji : j = i
            · subst hji
              simp only [if_true, Option.some.injEq] at hj
              subst hj
              cases hpj
            · simp only [hji, if_false] at hj
              exact absurd (h.excl j i pj (PC.ret t e) hj hi hpj rfl) hji
        · have htr : c.trace ++ (PC.ret t e).event.map (fun e => (i, e)) = c.trace := by
            simp [PC.event]
          rw [htr]
          exact serial_keep c.pcs c.trace i (PC.ret t e) (PC.done t e) hi rfl
            (fun hp => by cases hp) h.serial

/-- Every action of the scheduler keeps the invariant. -/
theorem Serialized_act (s0 : Sys σ ν) (N : Nat) (c : Callers σ ν) (a : Action)
    (h : Serialized s0 N c) : Serialized s0 N (c.act a) := by
  cases a with
  | call i => exact Serialized_step s0 N c i h
  | tick now => exact ⟨h.len, h.excl, h.lock, h.calls, h.serial⟩

/-- Every schedule keeps the invariant. -/
theorem Serialized_run (s0 : Sys σ ν) (N : Nat) (sched : List Action) :
    ∀ c : Callers σ ν, Serialized s0 N c → Serialized s0 N (Callers.run sched c) := by
  induction sched with
  | nil => intro c h; exact h
  | cons a rest ih =>
    intro c h
    exact ih (c.act a) (Serialized_act s0 N c a h)

/-- A caller between `Lock` and `Unlock` can always take its next step. -/
theorem TokenStep_of_inside (pc : PC) (s : Sys σ ν) (hin : pc.inside = true)
    (hl : s.mutex.locked = true) : (tokenManager.TokenStep pc s).isSome = true := by
  simp only [Sys.mutex] at hl
  cases pc with
  | start => cases hin
  | locked => rfl
  | got t e =>
    simp only [tokenManager.TokenStep]
    split_ifs <;> rfl
  | invalid t =>
    simp only [tokenManager.TokenStep]
    split_ifs <;> rfl
  | ret t e => simp [tokenManager.TokenStep, Mutex.Unlock, hl]
  | done t e => cases hin

/-- Under the invariant no caller waits for ever: while some caller has not
returned, some caller can take a step. -/
theorem Serialized_progress (s0 : Sys σ ν) (N : Nat) (c : Callers σ ν)
    (h : Serialized s0 N c) (i : Nat) (pc : PC) (hi : c.pcs[i]? = some pc)
    (hnd : pc.isDone = false) :
    ∃ (j : Nat) (pj : PC), c.pcs[j]? = some pj ∧
      (tokenManager.TokenStep pj c.sys).isSome = true := by
  cases hl : c.sys.mutex.locked with
  | true =>
    obtain ⟨j, pj, hj, hin⟩ := h.lock.1 hl
    exact ⟨j, pj, hj, TokenStep_of_inside pj c.sys hin hl⟩
  | false =>
    refine ⟨i, pc, hi, ?_⟩
    have hout : pc.inside = false := by
      cases hin : pc.inside with
      | false => rfl
      | true =>
        have := h.lock.2 ⟨i, pc, hi, hin⟩
        rw [hl] at this
        cases this
    simp only [Sys.mutex] at hl
    cases pc with
    | start => simp [tokenManager.TokenStep, Mutex.Lock, hl]
    | locked => cases hout
    | got t e => cases hout
    | invalid t => cases hout
    | ret t e => cases hout
    | done t e => cases hnd

/-- When every caller has returned, the callers whose calls make up the trace
are all `N` of them, each once. -/
theorem Serialized_all_done (s0 : Sys σ ν) (N : Nat) (c : Callers σ ν)
    (h : Serialized s0 N c) (hall : ∀ pc ∈ c.pcs, pc.isDone = true) :
    ∃ os, Serial os c.trace ∧ os.Perm (List.range N) := by
  obtain ⟨os, hser, hnd, hmem, -⟩ := h.serial
  refine ⟨os, hser, (List.perm_ext_iff_of_nodup hnd (List.nodup_range N)).2 ?_⟩
  intro i
  rw [hmem i, List.mem_range]
  constructor
  · rintro ⟨pc, hi, -⟩
    rcases List.getElem?_eq_some.1 hi with ⟨hlt, -⟩
    rw [← h.len]; exact hlt
  · intro hlt
    have hlt2 : i < c.pcs.length := by rw [h.len]; exact hlt
    refine ⟨c.pcs[i], List.getElem?_eq_getElem hlt2, ?_⟩
    have hd := hall c.pcs[i] (List.getElem_mem hlt2)
    cases hp : c.pcs[i] with
    | done t e => rfl
    | start => rw [hp] at hd; cases hd
    | locked => rw [hp] at hd; cases hd
    | got t e => rw [hp] at hd; cases hd
    | invalid t => rw [hp] at hd; cases hd
    | ret t e => rw [hp] at hd; cases hd

/-- A caller on its own, with the lock free, goes through its steps to the
result and the state of `Token()`. -/
theorem TokenSteps_eq_Token (s : Sys σ ν) (hlock : s.mutex.locked = false) :
    tokenManager.TokenSteps 5 PC.start s =
      (PC.done (tokenManager.TokenBody s).1.1 (tokenManager.TokenBody s).1.2,
        (tokenManager.TokenBody s).2) := by
  obtain ⟨⟨cnf, ⟨st, ⟨b⟩, src⟩⟩, d, n, now, calls⟩ := s
  simp only [Sys.mutex] at hlock
  subst hlock
  simp only [tokenManager.TokenSteps, tokenManager.TokenStep, Mutex.Lock, Mutex.Unlock,
    tokenManager.TokenBody, storeSave, storeGet]
  split_ifs <;> simp_all [tokenManager.TokenSteps, tokenManager.TokenStep, Mutex.Unlock]

/-- Claim C3: concurrent calls of `Token()` on one manager are serialized by its
lock.  A call that finds the lock held does not proceed, and a caller on its
own goes through the steps of lines 89-101 to the result of `Token()`.  For
every number `N` of callers arriving at a manager with the lock free, and every
schedule of their steps (and of the clock), the invariant `Serialized` holds at
the end: at most one caller is between `Lock` and `Unlock`, and the calls
received by the store are whole calls, `Get` or `Get` then `Save` of one
caller, one call after the other.  When all have returned, the store has seen
the calls of the `N` callers, each once; and as long as one has not returned,
some caller can take a step. -/
theorem Token_calls_serialized (s : Sys σ ν) (N : Nat) (sched : List Action)
    (hlock : s.mutex.locked = false) :
    (∀ s2 : Sys σ ν, s2.mutex.locked = true → tokenManager.Token s2 = none) ∧
    (∃ r s1, tokenManager.Token s = some (r, s1) ∧
      tokenManager.TokenSteps 5 PC.start s = (PC.done r.1 r.2, s1)) ∧
    Serialized s N (Callers.run sched (Callers.init N s)) ∧
    ((∀ pc ∈ (Callers.run sched (Callers.init N s)).pcs, pc.isDone = true) →
      ∃ os, Serial os (Callers.run sched (Callers.init N s)).trace ∧
        os.Perm (List.range N)) ∧
    (∀ (i : Nat) (pc : PC),
      (Callers.run sched (Callers.init N s)).pcs[i]? = some pc → pc.isDone = false →
      ∃ (j : Nat) (pj : PC), (Callers.run sched (Callers.init N s)).pcs[j]? = some pj ∧
        (tokenManager.TokenStep pj (Callers.run sched (Callers.init N s)).sys).isSome = true) := by
  have hinv := Serialized_run s N sched (Callers.init N s) (Serialized_init s N hlock)
  refine ⟨fun s2 h2 => Token_of_locked s2 h2, ?_, hinv, ?_, ?_⟩
  · exact ⟨(tokenManager.TokenBody s).1, (tokenManager.TokenBody s).2,
      Token_of_unlocked s hlock, TokenSteps_eq_Token s hlock⟩
  · exact fun hall => Serialized_all_done s N _ hinv hall
  · exact fun i pc hi hnd => Serialized_progress s N _ hinv i pc hi hnd

set_option maxRecDepth 20000 in
/-- Claim C3 at three callers on a memory store holding the expired `oldToken`,
under a schedule that interrupts each of them: all three return, and the store
has received the whole call of caller 1, then of caller 2, then of caller 0. -/
theorem Token_calls_serialized_witness :
    expiredSys.mutex.locked = false ∧
    (Callers.run demoSchedule (Callers.init 3 expiredSys)).trace =
      [(1, StoreCall.get), (1, StoreCall.save (some oldToken)),
       (2, StoreCall.get), (2, StoreCall.save (some oldToken)),
       (0, StoreCall.get), (0, StoreCall.save (some oldToken))] ∧
    (Callers.run demoSchedule (Callers.init 3 expiredSys)).pcs =
      [PC.done (some oldToken) none, PC.done (some oldToken) none,
       PC.done (some oldToken) none] ∧
    ((∀ s2 : Sys TokenPtr Unit, s2.mutex.locked = true → tokenManager.Token s2 = none) ∧
      (∃ r s1, tokenManager.Token expiredSys = some (r, s1) ∧
        tokenManager.TokenSteps 5 PC.start expiredSys = (PC.done r.1 r.2, s1)) ∧
      Serialized expiredSys 3 (Callers.run demoSchedule (Callers.init 3 expiredSys)) ∧
      ((∀ pc ∈ (Callers.run demoSchedule (Callers.init 3 expiredSys)).pcs, pc.isDone = true) →
        ∃ os, Serial os (Callers.run demoSchedule (Callers.init 3 expiredSys)).trace ∧
          os.Perm (List.range 3)) ∧
      (∀ (i : Nat) (pc : PC),
        (Callers.run demoSchedule (Callers.init 3 expiredSys)).pcs[i]? = some pc →
        pc.isDone = false →
        ∃ (j : Nat) (pj : PC),
          (Callers.run demoSchedule (Callers.init 3 expiredSys)).pcs[j]? = some pj ∧
          (tokenManager.TokenStep pj
            (Callers.run demoSchedule (Callers.init 3 expiredSys)).sys).isSome = true)) :=
  ⟨rfl, rfl, rfl, Token_calls_serialized expiredSys 3 demoSchedule rfl⟩

end Auth
